import Mathlib

/-!
A verification development for the meta-ads CLI core: the Graph API client
(`internal/api/client.go`), its pagination engine (`GetAll`), request signing
(`appSecretProof` / `baseParams`), response classification (`doRequest`),
credential resolution (`cmd/root.go resolveToken`), the campaigns list
command's single-page cap (`runCampaignsList`), and the OAuth login flow
(`runAuthLogin`).

The shallow embedding conventions:

* `url.Values` (a Go map from key to a slice of strings, of which this code
  base only ever reads the first element via `Get` and writes via `Set`) is
  modelled as a partial map `String → Option String`.  `Values.get` returns
  the empty string for an absent key, exactly like Go's `url.Values.Get`.
* Byte strings are `List Nat` with every element below 256; `utf8Bytes`
  re-implements Go's string-to-UTF-8-bytes conversion.
* HTTP traffic is abstracted by oracles: a pure function standing for one
  round trip.  Loops over responses become fuel-indexed recursion; the fuel
  only bounds the trace length observed, it never changes a produced value.
-/

namespace MetaAds

/-- Model of Go's `url.Values` restricted to the single-valued access pattern
(`Get`/`Set`) that this repository uses: a partial map from key to value. -/
def Values : Type := String → Option String

/-- The empty parameter map (`url.Values{}`). -/
def Values.empty : Values := fun _ => none

/-- Go `url.Values.Get`: first value for the key, or `""` when absent. -/
def Values.get (v : Values) (k : String) : String := (v k).getD ""

/-- Go `url.Values.Set`: replace the entry for `k` by the single value `x`. -/
def Values.set (v : Values) (k x : String) : Values :=
  fun k' => if k' = k then some x else v k'

/-- Go `for k, vs := range src { dst.Set(k, vs[0]) }`: every key present in
`src` overrides `dst`; keys absent from `src` are kept from `dst`. -/
def Values.override (dst src : Values) : Values :=
  fun k => match src k with
    | some x => some x
    | none => dst k

theorem Values.get_set_self (v : Values) (k x : String) : (v.set k x).get k = x := by
  simp [Values.get, Values.set]

theorem Values.get_set_ne (v : Values) {k k' : String} (x : String) (h : k' ≠ k) :
    (v.set k x).get k' = v.get k' := by
  simp [Values.get, Values.set, h]

/-- UTF-8 encoding of one character, as byte values (Go `[]byte(string)`). -/
def utf8Char (c : Char) : List Nat :=
  let n := c.toNat
  if n < 0x80 then [n]
  else if n < 0x800 then [0xc0 + n / 64, 0x80 + n % 64]
  else if n < 0x10000 then [0xe0 + n / 4096, 0x80 + n / 64 % 64, 0x80 + n % 64]
  else [0xf0 + n / 262144, 0x80 + n / 4096 % 64, 0x80 + n / 64 % 64, 0x80 + n % 64]

/-- UTF-8 bytes of a string, modelling Go's `[]byte(s)`. -/
def utf8Bytes (s : String) : List Nat := (s.data.map utf8Char).flatten

/-! ### SHA-256 and HMAC-SHA-256 (Go `crypto/sha256`, `crypto/hmac`)

32-bit machine words are natural numbers reduced modulo `2 ^ 32`. -/

/-- Truncation to a 32-bit word. -/
def w32 (n : Nat) : Nat := n % 4294967296

/-- Right rotation of a 32-bit word. -/
def rotr (x n : Nat) : Nat := w32 ((x >>> n) ||| (x <<< (32 - n)))

/-- The SHA-256 round constants. -/
def shaK : Array Nat := #[
  1116352408, 1899447441, 3049323471, 3921009573, 961987163, 1508970993,
  2453635748, 2870763221, 3624381080, 310598401, 607225278, 1426881987,
  1925078388, 2162078206, 2614888103, 3248222580, 3835390401, 4022224774,
  264347078, 604807628, 770255983, 1249150122, 1555081692, 1996064986,
  2554220882, 2821834349, 2952996808, 3210313671, 3336571891, 3584528711,
  113926993, 338241895, 666307205, 773529912, 1294757372, 1396182291,
  1695183700, 1986661051, 2177026350, 2456956037, 2730485921, 2820302411,
  3259730800, 3345764771, 3516065817, 3600352804, 4094571909, 275423344,
  430227734, 506948616, 659060556, 883997877, 958139571, 1322822218,
  1537002063, 1747873779, 1955562222, 2024104815, 2227730452, 2361852424,
  2428436474, 2756734187, 3204031479, 3329325298]

/-- The SHA-256 initial hash state. -/
def shaH0 : Array Nat :=
  #[1779033703, 3144134277, 1013904242, 2773480762, 1359893119,
    2600822924, 528734635, 1541459225]

/-- Big-endian bytes of a 64-bit length. -/
def be64 (n : Nat) : List Nat :=
  [n >>> 56 % 256, n >>> 48 % 256, n >>> 40 % 256, n >>> 32 % 256,
   n >>> 24 % 256, n >>> 16 % 256, n >>> 8 % 256, n % 256]

/-- Big-endian bytes of a 32-bit word. -/
def be32 (n : Nat) : List Nat := [n >>> 24 % 256, n >>> 16 % 256, n >>> 8 % 256, n % 256]

/-- SHA-256 message padding: `0x80`, zeros to 56 mod 64, then the bit length. -/
def shaPad (msg : List Nat) : List Nat :=
  let len := msg.length
  let zeros := (119 - len % 64) % 64
  msg ++ 0x80 :: List.replicate zeros 0 ++ be64 (len * 8)

/-- Split a byte list into successive 64-byte chunks (`n` bounds recursion). -/
def chunksGo : Nat → List Nat → List (List Nat)
  | 0, _ => []
  | _, [] => []
  | n + 1, l => l.take 64 :: chunksGo n (l.drop 64)

/-- All 64-byte chunks of a padded message. -/
def chunks64 (l : List Nat) : List (List Nat) := chunksGo l.length l

/-- Big-endian 32-bit words of one 64-byte chunk (`n` bounds recursion). -/
def wordsGo : Nat → List Nat → List Nat
  | 0, _ => []
  | _, [] => []
  | n + 1, b0 :: rest =>
    (b0 * 16777216 + rest.getD 0 0 * 65536 + rest.getD 1 0 * 256 + rest.getD 2 0)
      :: wordsGo n (rest.drop 3)

/-- The 64-entry message schedule of a chunk. -/
def shaSchedule (chunk : List Nat) : Array Nat :=
  let init := (wordsGo chunk.length chunk).toArray
  (List.range 48).foldl
    (fun w j =>
      let i := j + 16
      let x15 := w.getD (i - 15) 0
      let x2 := w.getD (i - 2) 0
      let s0 := rotr x15 7 ^^^ rotr x15 18 ^^^ (x15 >>> 3)
      let s1 := rotr x2 17 ^^^ rotr x2 19 ^^^ (x2 >>> 10)
      w.push (w32 (w.getD (i - 16) 0 + s0 + w.getD (i - 7) 0 + s1)))
    init

/-- One SHA-256 compression of a 64-byte chunk into the running state. -/
def shaCompress (h : Array Nat) (chunk : List Nat) : Array Nat :=
  let w := shaSchedule chunk
  let st := (List.range 64).foldl
    (fun st i =>
      let a := st.getD 0 0
      let b := st.getD 1 0
      let c := st.getD 2 0
      let d := st.getD 3 0
      let e := st.getD 4 0
      let f := st.getD 5 0
      let g := st.getD 6 0
      let hh := st.getD 7 0
      let s1 := rotr e 6 ^^^ rotr e 11 ^^^ rotr e 25
      let ch := (e &&& f) ^^^ ((e ^^^ 0xffffffff) &&& g)
      let t1 := w32 (hh + s1 + ch + shaK.getD i 0 + w.getD i 0)
      let s0 := rotr a 2 ^^^ rotr a 13 ^^^ rotr a 22
      let maj := (a &&& b) ^^^ (a &&& c) ^^^ (b &&& c)
      let t2 := w32 (s0 + maj)
      #[w32 (t1 + t2), a, b, c, w32 (d + t1), e, f, g])
    h
  (Array.range 8).map (fun i => w32 (h.getD i 0 + st.getD i 0))

/-- SHA-256 digest of a byte list, as 32 bytes. -/
def sha256 (msg : List Nat) : List Nat :=
  let final := (chunks64 (shaPad msg)).foldl shaCompress shaH0
  ((final.toList).map be32).flatten

/-- HMAC-SHA-256 with the given key and message bytes. -/
def hmacSha256 (key msg : List Nat) : List Nat :=
  let k0 := if 64 < key.length then sha256 key else key
  let k := k0 ++ List.replicate (64 - k0.length) 0
  sha256 ((k.map (fun b => b ^^^ 0x5c)) ++ sha256 ((k.map (fun b => b ^^^ 0x36)) ++ msg))

/-- Lowercase hexadecimal digit. -/
def hexDigit (n : Nat) : Char :=
  if n < 10 then Char.ofNat (48 + n) else Char.ofNat (87 + n)

/-- Lowercase hex rendering of a byte list (Go `fmt.Sprintf("%x", b)`). -/
def hexDigest (bytes : List Nat) : String :=
  ⟨(bytes.map (fun b => [hexDigit (b / 16), hexDigit (b % 16)])).flatten⟩

set_option maxRecDepth 10000 in
example : sha256 [] =
    [0xe3, 0xb0, 0xc4, 0x42, 0x98, 0xfc, 0x1c, 0x14, 0x9a, 0xfb, 0xf4, 0xc8,
     0x99, 0x6f, 0xb9, 0x24, 0x27, 0xae, 0x41, 0xe4, 0x64, 0x9b, 0x93, 0x4c,
     0xa4, 0x95, 0x99, 0x1b, 0x78, 0x52, 0xb8, 0x55] := by decide

set_option maxRecDepth 10000 in
example : hexDigest (hmacSha256 (utf8Bytes "Jefe") (utf8Bytes "what do ya want for nothing?")) =
    "5bdcc146bf60754e6a042426089575c75a003f089d2739839dec58b964ec3843" := by decide

/-! ### The API client (internal/api/client.go)

`url.Parse` is abstracted: a URL is carried in parsed form as its
non-query part (a raw string) together with its embedded query map. -/

/-- The fixed Graph API base (`baseURL` in client.go). -/
def baseURL : String := "https://graph.facebook.com/v25.0"

/-- The authenticated client: its token and optional app secret.  The
embedded `http.Client` (transport, timeout) is not modelled. -/
structure Client where
  token : String
  appSecret : String

/-- Go `strings.HasPrefix`, byte-for-byte on the underlying characters. -/
def hasPre (s pre : String) : Bool := pre.data.isPrefixOf s.data

/-- client.go `appSecretProof`: hex HMAC-SHA256 of the token keyed by the
app secret, or `""` when no app secret is configured. -/
def appSecretProof (c : Client) : String :=
  if c.appSecret = "" then ""
  else hexDigest (hmacSha256 (utf8Bytes c.appSecret) (utf8Bytes c.token))

/-- client.go `baseParams`: `access_token`, plus `appsecret_proof` when the
proof is non-empty. -/
def baseParams (c : Client) : Values :=
  let params := Values.empty.set "access_token" c.token
  let proof := appSecretProof c
  if proof = "" then params else params.set "appsecret_proof" proof

/-- A URL in parsed form: everything but the query, plus the query map. -/
structure ParsedURL where
  base : String
  query : Values

/-- client.go `buildURL`: absolute paths (anything starting with "http",
i.e. a pagination cursor) are used verbatim, otherwise the fixed API base
is prepended; then `base` and `extra` are set into the existing query. -/
def buildURL (path : ParsedURL) (base extra : Values) : ParsedURL :=
  { base := if hasPre path.base "http" then path.base else baseURL ++ path.base
    query := (path.query.override base).override extra }

/-- An outgoing HTTP request as the client constructs it. -/
structure Request where
  method : String
  urlBase : String
  urlQuery : Values
  body : Values

/-- The request built by client.go `Get`: auth params and caller params go
through `buildURL` into the query; the body stays empty. -/
def clientGet (c : Client) (path : ParsedURL) (params : Values) : Request :=
  let u := buildURL path (baseParams c) params
  { method := "GET", urlBase := u.base, urlQuery := u.query, body := Values.empty }

/-- The request built by client.go `Post`: `buildURL` receives the base
(auth) params with no extras, and the base params are also merged into the
form body. -/
def clientPost (c : Client) (path : ParsedURL) (body : Values) : Request :=
  let u := buildURL path (baseParams c) Values.empty
  { method := "POST", urlBase := u.base, urlQuery := u.query
    body := body.override (baseParams c) }

/-- client.go `NormalizeAccountID`: ensure the `act_` prefix. -/
def NormalizeAccountID (id : String) : String :=
  if hasPre id "act_" then id else "act_" ++ id

theorem isPrefixOf_append_self (l t : List Char) : l.isPrefixOf (l ++ t) = true := by
  induction l with
  | nil => simp
  | cons a l ih => simp [List.isPrefixOf, ih]

theorem hasPre_append (pre s : String) : hasPre (pre ++ s) pre = true := by
  unfold hasPre
  rw [ String.data_append]
  exact isPrefixOf_append_self _ _

theorem eq_append_of_hasPre {s pre : String} (h : hasPre s pre = true) :
    ∃ t, s = pre ++ t := by
  have h2 : pre.data <+: s.data := by
    rw [ ← List.isPrefixOf_iff_prefix]
    exact h
  obtain ⟨t, ht⟩ := h2
  refine ⟨⟨t⟩, String.ext ?_⟩
  rw [ String.data_append]
  exact ht.symm

theorem Values.set_apply_self (v : Values) (k x : String) : v.set k x k = some x := by
  simp [Values.set]

theorem Values.set_apply_ne (v : Values) {k k' : String} (x : String) (h : k' ≠ k) :
    v.set k x k' = v k' := by
  simp [Values.set, h]

theorem Values.override_apply_some {src : Values} {k x : String} (dst : Values)
    (h : src k = some x) : (dst.override src) k = some x := by
  simp [Values.override, h]

theorem Values.override_apply_none {src : Values} {k : String} (dst : Values)
    (h : src k = none) : (dst.override src) k = dst k := by
  simp [Values.override, h]

theorem baseParams_access_token (c : Client) : baseParams c "access_token" = some c.token := by
  by_cases h : appSecretProof c = "" <;>
    simp [baseParams, h, Values.set, Values.empty]

theorem baseParams_proof_of_empty {c : Client} (h : c.appSecret = "") :
    baseParams c "appsecret_proof" = none := by
  have hp : appSecretProof c = "" := by simp [appSecretProof, h]
  simp [baseParams, hp, Values.set, Values.empty]

theorem baseParams_proof_of_ne {c : Client} (h : appSecretProof c ≠ "") :
    baseParams c "appsecret_proof" = some (appSecretProof c) := by
  simp [baseParams, h, Values.set, Values.empty]

/-- C10: `NormalizeAccountID` is idempotent, and its result always begins
with the prefix `"act_"`. -/
theorem normalizeAccountID_idem_and_act (s : String) :
    NormalizeAccountID (NormalizeAccountID s) = NormalizeAccountID s ∧
    ∃ t, NormalizeAccountID s = "act_" ++ t := by
  constructor
  · by_cases h : hasPre s "act_" = true
    · simp [NormalizeAccountID, h]
    · simp [NormalizeAccountID, h, hasPre_append]
  · by_cases h : hasPre s "act_" = true
    · simpa [NormalizeAccountID, h] using eq_append_of_hasPre h
    · exact ⟨s, by simp [NormalizeAccountID, h]⟩

/-- C8: the request-signing proof is a deterministic pure function of the
pair (token, appSecret) — the lowercase hex encoding of HMAC-SHA256 of the
token bytes keyed by the app secret — and when the app secret is empty the
proof is the empty string and no `appsecret_proof` parameter appears in any
GET or POST request the client builds. -/
theorem appSecretProof_hmac_and_empty :
    (∀ c : Client, c.appSecret ≠ "" →
      appSecretProof c = hexDigest (hmacSha256 (utf8Bytes c.appSecret) (utf8Bytes c.token))) ∧
    (∀ c c' : Client, c.token = c'.token → c.appSecret = c'.appSecret →
      appSecretProof c = appSecretProof c') ∧
    (∀ t : String, appSecretProof ⟨t, ""⟩ = "") ∧
    (∀ c : Client, c.appSecret = "" → baseParams c "appsecret_proof" = none) ∧
    (∀ (c : Client) (path : ParsedURL) (params : Values), c.appSecret = "" →
      params "appsecret_proof" = none → path.query "appsecret_proof" = none →
      (clientGet c path params).urlQuery "appsecret_proof" = none) ∧
    (∀ (c : Client) (path : ParsedURL) (body : Values), c.appSecret = "" →
      body "appsecret_proof" = none → path.query "appsecret_proof" = none →
      (clientPost c path body).urlQuery "appsecret_proof" = none ∧
      (clientPost c path body).body "appsecret_proof" = none) := by
  refine ⟨?_, ?_, ?_, fun c h => baseParams_proof_of_empty h, ?_, ?_⟩
  · intro c h
    simp [appSecretProof, h]
  · intro c c' h1 h2
    cases c; cases c'
    simp_all
  · intro t
    simp [appSecretProof]
  · intro c path params hc hp hq
    simp [clientGet, buildURL, Values.override, Values.empty, hp, hq,
      baseParams_proof_of_empty hc]
  · intro c path body hc hb hq
    constructor
    · simp [clientPost, buildURL, Values.override, Values.empty, hq,
        baseParams_proof_of_empty hc]
    · simp [clientPost, Values.override, hb, baseParams_proof_of_empty hc]

/-- Witness for C8: concrete client with an empty app secret. -/
theorem appSecretProof_hmac_and_empty_witness :
    baseParams ⟨"tok", ""⟩ "appsecret_proof" = none :=
  appSecretProof_hmac_and_empty.2.2.2.1 ⟨"tok", ""⟩ rfl

/-- C4 counterexample: on a concrete POST the `access_token` authentication
parameter does appear in the request URL's query string (because `Post`
hands `baseParams` to `buildURL`), contradicting the claim that for POST
the auth parameters are not merged into the URL query. -/
theorem post_auth_in_query_counterexample :
    (clientPost ⟨"tok", ""⟩ ⟨"/act_1/campaigns", Values.empty⟩ Values.empty).urlQuery
      "access_token" = some "tok" := by
  simp [clientPost, buildURL, Values.override, Values.empty,
    baseParams_access_token ⟨"tok", ""⟩]

/-- C4 (amended): for every POST request the auth parameters are merged into
the form-encoded body and are additionally attached to the request URL's
query string; for every GET request they are attached as query parameters
(when the caller's own params do not shadow them). -/
theorem auth_params_placement :
    (∀ (c : Client) (path : ParsedURL) (body : Values),
      (clientPost c path body).body "access_token" = some c.token) ∧
    (∀ (c : Client) (path : ParsedURL) (body : Values),
      (clientPost c path body).urlQuery "access_token" = some c.token) ∧
    (∀ (c : Client) (path : ParsedURL) (params : Values), params "access_token" = none →
      (clientGet c path params).urlQuery "access_token" = some c.token) ∧
    (∀ (c : Client) (path : ParsedURL) (body : Values), appSecretProof c ≠ "" →
      (clientPost c path body).body "appsecret_proof" = some (appSecretProof c) ∧
      (clientPost c path body).urlQuery "appsecret_proof" = some (appSecretProof c)) ∧
    (∀ (c : Client) (path : ParsedURL) (params : Values), appSecretProof c ≠ "" →
      params "appsecret_proof" = none →
      (clientGet c path params).urlQuery "appsecret_proof" = some (appSecretProof c)) := by
  refine ⟨?_, ?_, ?_, ?_, ?_⟩
  · intro c path body
    simp [clientPost, Values.override, baseParams_access_token c]
  · intro c path body
    simp [clientPost, buildURL, Values.override, Values.empty, baseParams_access_token c]
  · intro c path params hp
    simp [clientGet, buildURL, Values.override, hp, baseParams_access_token c]
  · intro c path body hc
    constructor
    · simp [clientPost, Values.override, baseParams_proof_of_ne hc]
    · simp [clientPost, buildURL, Values.override, Values.empty, baseParams_proof_of_ne hc]
  · intro c path params hc hp
    simp [clientGet, buildURL, Values.override, hp, baseParams_proof_of_ne hc]

/-- Witness for C4 (amended): concrete GET with empty caller params carries
the token in its query. -/
theorem auth_params_placement_witness :
    (clientGet ⟨"tok", "sec"⟩ ⟨"/me", Values.empty⟩ Values.empty).urlQuery
      "access_token" = some "tok" :=
  auth_params_placement.2.2.1 ⟨"tok", "sec"⟩ ⟨"/me", Values.empty⟩ Values.empty rfl

/-! ### Response classification (client.go `doRequest`, types.go `MetaError`)

A response body is modelled as `Option Json`: `some j` for a body that is
valid JSON with tree `j`, `none` for a body `json.Unmarshal` rejects.
`unmarshalErrEnvelope` mirrors Go's `json.Unmarshal(body, &errResp)` for
`struct { Error *MetaError }`: the outer `Option` is unmarshal success, the
inner one is whether the `Error` pointer ends up non-nil. -/

/-- A JSON value; numbers are restricted to integers, which covers every
field the error envelope reads. -/
inductive Json where
  | null
  | bool (b : Bool)
  | num (n : Int)
  | str (s : String)
  | arr (elems : List Json)
  | obj (fields : List (String × Json))

/-- Object field lookup; on duplicate keys the last wins, as in Go. -/
def jsonField (fields : List (String × Json)) (k : String) : Option Json :=
  fields.foldl (fun acc f => if f.1 = k then some f.2 else acc) none

/-- types.go `MetaError`: the decoded Meta API error envelope. -/
structure MetaError where
  code : Int
  message : String
  type : String
  subcode : Int
deriving DecidableEq

/-- Go unmarshal of one `int` struct field: absent or JSON null leaves the
zero value; a number decodes; any other shape is an unmarshal error. -/
def decodeIntField : Option Json → Option Int
  | none => some 0
  | some .null => some 0
  | some (.num n) => some n
  | some _ => none

/-- Go unmarshal of one `string` struct field. -/
def decodeStrField : Option Json → Option String
  | none => some ""
  | some .null => some ""
  | some (.str s) => some s
  | some _ => none

/-- Go unmarshal of an object's fields into `MetaError`. -/
def decodeMetaError (fields : List (String × Json)) : Option MetaError := do
  let code ← decodeIntField (jsonField fields "code")
  let message ← decodeStrField (jsonField fields "message")
  let ty ← decodeStrField (jsonField fields "type")
  let subcode ← decodeIntField (jsonField fields "error_subcode")
  pure ⟨code, message, ty, subcode⟩

/-- Go `json.Unmarshal(body, &errResp)` for `struct { Error *MetaError }`. -/
def unmarshalErrEnvelope : Json → Option (Option MetaError)
  | .null => some none
  | .obj fields =>
    match jsonField fields "error" with
    | none => some none
    | some .null => some none
    | some (.obj efs) => (decodeMetaError efs).map some
    | some _ => none
  | _ => none

/-- The error envelope `doRequest` detects in a body, if any: unmarshal
succeeded and the `Error` pointer is non-nil. -/
def envelopeOf : Option Json → Option MetaError
  | some j =>
    match unmarshalErrEnvelope j with
    | some (some e) => some e
    | _ => none
  | none => none

/-- The failures `doRequest` can classify a received response into. -/
inductive DoRequestError where
  | apiError (e : MetaError)
  | httpStatus (status : Nat) (body : Option Json)

/-- client.go `doRequest` after the transport succeeded: check the body for
a Meta error envelope regardless of status, then the HTTP status, else
return the raw body.  (The rate-limit header inspection only warns and
never alters the result, so it is not modelled.) -/
def doRequest (status : Nat) (body : Option Json) : Except DoRequestError (Option Json) :=
  match envelopeOf body with
  | some e => .error (.apiError e)
  | none => if 400 ≤ status then .error (.httpStatus status body) else .ok body

/-- Response classification exactly as the spec words it, for comparison
with `doRequest`: decode an envelope from the body regardless of HTTP
status; if present fail with the envelope; else if status is at least 400
fail with the status and raw body; else succeed with the raw body. -/
def classifyResponseSpec (status : Nat) (body : Option Json) :
    Except DoRequestError (Option Json) :=
  match envelopeOf body with
  | some e => Except.error (DoRequestError.apiError e)
  | none =>
    if status ≥ 400 then Except.error (DoRequestError.httpStatus status body)
    else Except.ok body

/-- The spec's round-trip example: a 200-status body carrying envelope code
190, subcode 463. -/
def envelopeBody190 : Json :=
  .obj [("error", .obj [("code", .num 190), ("message", .str "Invalid token"),
    ("error_subcode", .num 463)])]

/-- C1: every response body is first checked for a Meta error envelope
regardless of HTTP status; an envelope wins over the status, a status of at
least 400 with no envelope gives an HTTP status error carrying status and
raw body, and otherwise the raw body is returned; in particular the spec's
200-status example body fails with code 190 and subcode 463. -/
theorem doRequest_classification :
    (∀ (status : Nat) (body : Option Json), doRequest status body = classifyResponseSpec status body) ∧
    (∀ (status : Nat) (body : Option Json) (e : MetaError), envelopeOf body = some e →
      doRequest status body = .error (.apiError e)) ∧
    (∀ (status : Nat) (body : Option Json), envelopeOf body = none → 400 ≤ status →
      doRequest status body = .error (.httpStatus status body)) ∧
    (∀ (status : Nat) (body : Option Json), envelopeOf body = none → status < 400 →
      doRequest status body = .ok body) ∧
    doRequest 200 (some envelopeBody190) =
      .error (.apiError { code := 190, message := "Invalid token", type := "", subcode := 463 }) := by
  refine ⟨?_, ?_, ?_, ?_, rfl⟩
  · intro status body
    unfold doRequest classifyResponseSpec
    rfl
  · intro status body e h
    simp [doRequest, h]
  · intro status body h hs
    simp [doRequest, h, hs]
  · intro status body h hs
    simp [doRequest, h, Nat.not_le.mpr hs]

/-- Witness for C1: the spec's example envelope discharges the hypotheses
at a concrete input. -/
theorem doRequest_classification_witness :
    doRequest 200 (some envelopeBody190) =
      .error (.apiError { code := 190, message := "Invalid token", type := "", subcode := 463 }) :=
  doRequest_classification.2.1 200 (some envelopeBody190) _ rfl

/-! ### The pagination engine (client.go `GetAll`)

One HTTP round trip of `c.Get` followed by the page unmarshal is abstracted
as a `Fetch` oracle from the request (path and params) to its outcome.  The
loop `for { ... }` becomes fuel-indexed recursion that also returns the
trace of issued requests; `none` as second component means the fuel ran out
before the loop finished, so every theorem assumes enough fuel for the
server behaviour at hand. -/

/-- types.go `Paging` (the `cursors` sub-struct is never read by the core). -/
structure Paging where
  next : String := ""
  previous : String := ""

/-- One decoded list-endpoint page: `{data: [...], paging: {...}}`.  The
raw JSON records are carried as `Json` values. -/
structure Page where
  data : List Json
  paging : Option Paging

/-- Outcome of one `c.Get` round trip as `GetAll` observes it. -/
inductive FetchResult where
  | fail (e : DoRequestError)
  | badPage
  | page (pg : Page)

/-- The request oracle: what the server answers at each path and params. -/
def Fetch : Type := String → Values → FetchResult

/-- The two failure modes of `GetAll`: a propagated `Get` error, or the
page-unmarshal error (`fmt.Errorf("parsing page: %w", err)`). -/
inductive GetAllError where
  | getErr (e : DoRequestError)
  | parseErr

/-- The `for` loop of `GetAll`, with the issued-request trace. -/
def getAllLoop (get : Fetch) : Nat → String → Values → List Json →
    List (String × Values) × Option (Except GetAllError (List Json))
  | 0, _, _, _ => ([], none)
  | fuel + 1, path, p, all =>
    match get path p with
    | .fail e => ([(path, p)], some (.error (.getErr e)))
    | .badPage => ([(path, p)], some (.error .parseErr))
    | .page pg =>
      let all2 := all ++ pg.data
      match pg.paging with
      | none => ([(path, p)], some (.ok all2))
      | some pgg =>
        if pgg.next = "" then ([(path, p)], some (.ok all2))
        else
          let r := getAllLoop get fuel pgg.next Values.empty all2
          ((path, p) :: r.1, r.2)

/-- The clone loop of `GetAll`: `p := url.Values{}; for k, v := range
params { p[k] = v }` — each entry of the caller's map copied into a fresh
map. -/
def cloneValues (params : Values) : Values := Values.override Values.empty params

/-- Params preparation in `GetAll`: clone, then default `limit` to 100 when
the caller set none. -/
def getAllParams (params : Values) : Values :=
  let p := cloneValues params
  if p.get "limit" = "" then p.set "limit" "100" else p

/-- client.go `GetAll`: prepare params, then loop from the initial path. -/
def GetAll (get : Fetch) (fuel : Nat) (path : String) (params : Values) :
    List (String × Values) × Option (Except GetAllError (List Json)) :=
  getAllLoop get fuel path (getAllParams params) []

/-- Whether a page terminates the loop: `paging == nil || paging.Next == ""`. -/
def pageDone (pg : Page) : Bool :=
  match pg.paging with
  | none => true
  | some pgg => pgg.next == ""

/-- The oracle serves this page sequence along the cursor chain starting at
the given request: every page but the last carries a non-empty next cursor
(each followed with cleared params), and the last carries none. -/
inductive Serves (get : Fetch) : String → Values → List Page → Prop
  | last (path : String) (p : Values) (pg : Page) :
      get path p = .page pg → pageDone pg = true → Serves get path p [pg]
  | step (path : String) (p : Values) (pg : Page) (pgg : Paging) (rest : List Page) :
      get path p = .page pg → pg.paging = some pgg → pgg.next ≠ "" →
      Serves get pgg.next Values.empty rest → Serves get path p (pg :: rest)

/-- The request trace the loop issues over a served page sequence: the
entry request, then each cursor URL with cleared (empty) params. -/
def expectedLog : String → Values → List Page → List (String × Values)
  | _, _, [] => []
  | path, p, pg :: rest =>
    (path, p) ::
      match pg.paging with
      | none => []
      | some pgg => if pgg.next = "" then [] else expectedLog pgg.next Values.empty rest

theorem getAllLoop_serves {get : Fetch} {path : String} {p : Values} {pages : List Page}
    (h : Serves get path p pages) :
    ∀ (fuel : Nat) (acc : List Json), pages.length ≤ fuel →
    getAllLoop get fuel path p acc =
      (expectedLog path p pages, some (.ok (acc ++ (pages.map Page.data).flatten))) := by
  induction h with
  | last path p pg hget hdone =>
    intro fuel acc hf
    cases fuel with
    | zero => simp at hf
    | succ n =>
      cases hp : pg.paging with
      | none => simp [getAllLoop, hget, hp, expectedLog]
      | some pgg =>
        have hn : pgg.next = "" := by simpa [pageDone, hp] using hdone
        simp [getAllLoop, hget, hp, hn, expectedLog]
  | step path p pg pgg rest hget hpg hne hrest ih =>
    intro fuel acc hf
    cases fuel with
    | zero => simp at hf
    | succ n =>
      have hf2 : rest.length ≤ n := by
        simpa using Nat.succ_le_succ_iff.mp (by simpa using hf)
      simp [getAllLoop, hget, hpg, hne, ih n (acc ++ pg.data) hf2, expectedLog]

/-- C2: over any page sequence in which each page but the last carries a
non-empty next cursor and the last carries none, `GetAll` returns exactly
the concatenation of the pages' data arrays in page order (intra-page
order preserved), stops at the first page whose `paging.next` is absent or
empty, and each followed request uses the cursor URL as path with local
params cleared — that is the whole request trace `expectedLog`. -/
theorem getAll_concat (get : Fetch) (path : String) (params : Values)
    (pages : List Page) (fuel : Nat)
    (h : Serves get path (getAllParams params) pages) (hf : pages.length ≤ fuel) :
    GetAll get fuel path params =
      (expectedLog path (getAllParams params) pages,
       some (.ok (pages.map Page.data).flatten)) := by
  simpa [GetAll] using getAllLoop_serves h fuel [] hf

/-- A concrete three-page server used by the pagination witnesses. -/
def exPage1 : Page := ⟨[.str "a1", .str "a2"], some { next := "https://next/2" }⟩

/-- Second concrete page. -/
def exPage2 : Page := ⟨[.str "b1"], some { next := "https://next/3" }⟩

/-- Last concrete page: no next cursor. -/
def exPage3 : Page := ⟨[.str "c1"], none⟩

/-- Concrete oracle serving the three pages along their cursor chain. -/
def exFetch : Fetch := fun path _ =>
  if path = "/act_1/campaigns" then .page exPage1
  else if path = "https://next/2" then .page exPage2
  else if path = "https://next/3" then .page exPage3
  else .fail (.httpStatus 404 none)

/-- Witness for C2: the concrete three-page chain concatenates in order. -/
theorem getAll_concat_witness :
    GetAll exFetch 5 "/act_1/campaigns" Values.empty =
      (expectedLog "/act_1/campaigns" (getAllParams Values.empty) [exPage1, exPage2, exPage3],
       some (.ok [.str "a1", .str "a2", .str "b1", .str "c1"])) := by
  have h : Serves exFetch "/act_1/campaigns" (getAllParams Values.empty)
      [exPage1, exPage2, exPage3] :=
    Serves.step _ _ _ ⟨"https://next/2", ""⟩ _ rfl rfl (by decide)
      (Serves.step _ _ _ ⟨"https://next/3", ""⟩ _ rfl rfl (by decide)
        (Serves.last _ _ _ rfl rfl))
  simpa [exPage1, exPage2, exPage3] using
    getAll_concat exFetch "/act_1/campaigns" Values.empty [exPage1, exPage2, exPage3] 5 h
      (by decide)

/-- The oracle fails (transport error or unparseable page) after exactly
`n` successfully served pages, each carrying a non-empty next cursor. -/
inductive FailsAfter (get : Fetch) : Nat → String → Values → Prop
  | fetchFail (path : String) (p : Values) (e : DoRequestError) :
      get path p = .fail e → FailsAfter get 0 path p
  | parseFail (path : String) (p : Values) :
      get path p = .badPage → FailsAfter get 0 path p
  | step (n : Nat) (path : String) (p : Values) (pg : Page) (pgg : Paging) :
      get path p = .page pg → pg.paging = some pgg → pgg.next ≠ "" →
      FailsAfter get n pgg.next Values.empty → FailsAfter get (n + 1) path p

theorem getAllLoop_failsAfter {get : Fetch} {n : Nat} {path : String} {p : Values}
    (h : FailsAfter get n path p) :
    ∀ (fuel : Nat) (acc : List Json), n < fuel →
    ∃ e, (getAllLoop get fuel path p acc).2 = some (.error e) := by
  induction h with
  | fetchFail path p e hget =>
    intro fuel acc hf
    cases fuel with
    | zero => simp at hf
    | succ m => exact ⟨.getErr e, by simp [getAllLoop, hget]⟩
  | parseFail path p hget =>
    intro fuel acc hf
    cases fuel with
    | zero => simp at hf
    | succ m => exact ⟨.parseErr, by simp [getAllLoop, hget]⟩
  | step n path p pg pgg hget hpg hne hrest ih =>
    intro fuel acc hf
    cases fuel with
    | zero => simp at hf
    | succ m =>
      obtain ⟨e, he⟩ := ih m (acc ++ pg.data) (by omega)
      exact ⟨e, by simp [getAllLoop, hget, hpg, hne, he]⟩

/-- C6: if any page fetch or page parse in a pagination sequence fails,
`GetAll` produces an error and no record list at all — the accumulated
records from earlier successful pages are abandoned. -/
theorem getAll_all_or_nothing (get : Fetch) (path : String) (params : Values)
    (n fuel : Nat) (h : FailsAfter get n path (getAllParams params)) (hf : n < fuel) :
    ∃ e, (GetAll get fuel path params).2 = some (.error e) := by
  simpa [GetAll] using getAllLoop_failsAfter h fuel [] hf

/-- Concrete oracle: one good page whose cursor then yields an HTTP 500. -/
def exFetchFail : Fetch := fun path _ =>
  if path = "/act_1/ads" then .page ⟨[.str "a1"], some { next := "https://next/bad" }⟩
  else .fail (.httpStatus 500 none)

/-- Witness for C6: after one served page the cursor fetch fails, and the
whole call returns an error. -/
theorem getAll_all_or_nothing_witness :
    ∃ e, (GetAll exFetchFail 5 "/act_1/ads" Values.empty).2 = some (.error e) :=
  getAll_all_or_nothing exFetchFail "/act_1/ads" Values.empty 1 5
    (FailsAfter.step _ _ _ _ ⟨"https://next/bad", ""⟩ rfl rfl (by decide)
      (FailsAfter.fetchFail _ _ (.httpStatus 500 none) rfl))
    (by decide)

/-! ### campaigns list (campaigns.go `runCampaignsList`) -/

/-- The fixed field projection requested by `campaigns list`. -/
def campaignsListFields : String :=
  "id,name,status,effective_status,objective,daily_budget,lifetime_budget,budget_remaining,bid_strategy,start_time,stop_time,created_time"

/-- The fetch part of `runCampaignsList`: build params from the flags; with
a positive `--limit` set `limit` and issue one single `Get` whose page data
becomes the item list (its paging is never examined); otherwise delegate to
`GetAll`.  Account resolution and output formatting are not modelled. -/
def runCampaignsListFetch (campaignLimit : Int) (statusFilter account : String)
    (get : Fetch) (fuel : Nat) :
    List (String × Values) × Option (Except GetAllError (List Json)) :=
  let params := Values.empty.set "fields" campaignsListFields
  let params :=
    if statusFilter ≠ "" then
      params.set "effective_status" ("[\"" ++ statusFilter ++ "\"]")
    else params
  let params :=
    if 0 < campaignLimit then params.set "limit" (toString campaignLimit) else params
  let path := "/" ++ account ++ "/campaigns"
  if 0 < campaignLimit then
    let params := params.set "limit" (toString campaignLimit)
    match get path params with
    | .fail e => ([(path, params)], some (.error (.getErr e)))
    | .badPage => ([(path, params)], some (.error .parseErr))
    | .page pg => ([(path, params)], some (.ok pg.data))
  else
    GetAll get fuel path params

/-- C3: with a caller-specified hard item cap, exactly one page request is
issued, it carries the cap as its `limit` parameter, and no second request
is ever made — whatever the response, cursor or not. -/
theorem campaignsList_hard_cap (campaignLimit : Int) (statusFilter account : String)
    (get : Fetch) (fuel : Nat) (h : 0 < campaignLimit) :
    (runCampaignsListFetch campaignLimit statusFilter account get fuel).1.length = 1 ∧
    ∀ req ∈ (runCampaignsListFetch campaignLimit statusFilter account get fuel).1,
      req.2.get "limit" = toString campaignLimit := by
  unfold runCampaignsListFetch
  simp only [if_pos h]
  set params0 := Values.empty.set "fields" campaignsListFields with hp0
  set params1 :=
    if statusFilter ≠ "" then
      params0.set "effective_status" ("[\"" ++ statusFilter ++ "\"]")
    else params0 with hp1
  cases hg : get ("/" ++ account ++ "/campaigns")
      ((params1.set "limit" (toString campaignLimit)).set "limit" (toString campaignLimit)) with
  | fail e => simp [hg, Values.get_set_self]
  | badPage => simp [hg, Values.get_set_self]
  | page pg => simp [hg, Values.get_set_self]

/-- Oracle returning a single page that does carry a next cursor. -/
def exFetchCursor : Fetch := fun _ _ =>
  .page ⟨[.str "x1"], some { next := "https://next/more" }⟩

/-- Witness for C3: cap 5 against a cursor-bearing response still issues
exactly one request, with limit 5. -/
theorem campaignsList_hard_cap_witness :
    (runCampaignsListFetch 5 "" "act_1" exFetchCursor 9).1.length = 1 ∧
    ∀ req ∈ (runCampaignsListFetch 5 "" "act_1" exFetchCursor 9).1,
      req.2.get "limit" = toString (5 : Int) :=
  campaignsList_hard_cap 5 "" "act_1" exFetchCursor 9 (by decide)

theorem cloneValues_apply (params : Values) (k : String) :
    cloneValues params k = params k := by
  simp only [cloneValues, Values.override, Values.empty]
  cases params k <;> simp

theorem cloneValues_get (params : Values) (k : String) :
    (cloneValues params).get k = params.get k := by
  simp [Values.get, cloneValues_apply]

theorem getAllLoop_head (get : Fetch) (fuel : Nat) (path : String) (p : Values)
    (acc : List Json) (hf : 1 ≤ fuel) :
    (getAllLoop get fuel path p acc).1.head? = some (path, p) := by
  cases fuel with
  | zero => simp at hf
  | succ n =>
    cases hg : get path p with
    | fail e => simp [getAllLoop, hg]
    | badPage => simp [getAllLoop, hg]
    | page pg =>
      cases hp : pg.paging with
      | none => simp [getAllLoop, hg, hp]
      | some pgg =>
        by_cases hn : pgg.next = "" <;> simp [getAllLoop, hg, hp, hn]

/-- C9: `GetAll` operates on a clone of the caller's params — the clone
copies exactly the caller's entries, so the caller's map is never written —
and the default page size 100 is set only on that clone and only when the
caller set no limit; the first issued request carries exactly the prepared
clone. -/
theorem getAll_clone_and_default :
    (∀ (params : Values) (k : String), cloneValues params k = params k) ∧
    (∀ params : Values, params.get "limit" ≠ "" →
      ∀ k, getAllParams params k = params k) ∧
    (∀ params : Values, params.get "limit" = "" →
      getAllParams params "limit" = some "100" ∧
      ∀ k, k ≠ "limit" → getAllParams params k = params k) ∧
    (∀ (get : Fetch) (fuel : Nat) (path : String) (params : Values), 1 ≤ fuel →
      (GetAll get fuel path params).1.head? = some (path, getAllParams params)) := by
  refine ⟨cloneValues_apply, ?_, ?_, ?_⟩
  · intro params h k
    have hc : (cloneValues params).get "limit" ≠ "" := by
      rw [ cloneValues_get]; exact h
    simp [getAllParams, hc, cloneValues_apply]
  · intro params h
    have hc : (cloneValues params).get "limit" = "" := by
      rw [ cloneValues_get]; exact h
    refine ⟨by simp [getAllParams, hc, Values.set], ?_⟩
    intro k hk
    simp [getAllParams, hc, Values.set, hk, cloneValues_apply]
  · intro get fuel path params hf
    exact getAllLoop_head get fuel path (getAllParams params) [] hf

/-- A concrete caller params map with its own limit. -/
def exParamsLimit : Values := (Values.empty.set "fields" "id,name").set "limit" "25"

/-- Witness for C9: a caller-set limit of 25 is kept verbatim and the
caller's entries are reproduced unchanged. -/
theorem getAll_clone_and_default_witness :
    getAllParams exParamsLimit "limit" = some "25" ∧
    getAllParams exParamsLimit "fields" = some "id,name" := by
  have h := getAll_clone_and_default.2.1 exParamsLimit (by decide)
  exact ⟨by rw [ h "limit"]; rfl, by rw [ h "fields"]; rfl⟩

/-! ### Credential resolution (root.go `resolveToken`)

The environment, the own config file and the shared meta-auth config are
the inputs of one resolution run, gathered in a world record.  The
`metaauth` package itself is outside the sources; `resolveToken` only
consumes the value-or-error its `Token()` call produces, which is what the
`sharedResult` field stands for. -/

/-- config.Config (config.go): the persisted user configuration. -/
structure Config where
  accessToken : String := ""
  tokenType : String := ""
  userID : String := ""
  userName : String := ""
  defaultAccount : String := ""
  appID : String := ""
  appSecret : String := ""
deriving DecidableEq

/-- config.go `TokenTypeOAuth`. -/
def tokenTypeOAuth : String := "oauth"

/-- The inputs one `resolveToken` run reads. -/
structure ResolveWorld where
  envMetaToken : String
  envMetaAppSecret : String
  loadResult : Except String Config
  sharedResult : Except String String

/-- The failures `resolveToken` distinguishes. -/
inductive ResolveError where
  | loadFailed (e : String)
  | sharedFailed (e : String)
  | notAuthenticated
deriving DecidableEq

/-- root.go `resolveToken`: env override first, then the own config file,
then the shared meta-auth token; each non-env source falls back to the env
app secret. -/
def resolveToken (w : ResolveWorld) : Except ResolveError (String × String) :=
  if w.envMetaToken ≠ "" then .ok (w.envMetaToken, w.envMetaAppSecret)
  else
    match w.loadResult with
    | .error e => .error (.loadFailed e)
    | .ok cfg =>
      if cfg.accessToken ≠ "" then
        .ok (cfg.accessToken,
          if cfg.appSecret = "" then w.envMetaAppSecret else cfg.appSecret)
      else
        match w.sharedResult with
        | .error e => .error (.sharedFailed e)
        | .ok shared =>
          if shared ≠ "" then .ok (shared, w.envMetaAppSecret)
          else .error .notAuthenticated

/-- C5: token resolution takes the first non-empty source in the order
env override, own config, shared config — the env override wins over a
stored token — and the not-authenticated error occurs exactly when every
source yielded an empty token. -/
theorem resolveToken_priority :
    (∀ w : ResolveWorld, w.envMetaToken ≠ "" →
      resolveToken w = .ok (w.envMetaToken, w.envMetaAppSecret)) ∧
    (∀ (w : ResolveWorld) (cfg : Config), w.envMetaToken = "" →
      w.loadResult = .ok cfg → cfg.accessToken ≠ "" →
      ∃ s, resolveToken w = .ok (cfg.accessToken, s)) ∧
    (∀ (w : ResolveWorld) (cfg : Config) (shared : String), w.envMetaToken = "" →
      w.loadResult = .ok cfg → cfg.accessToken = "" →
      w.sharedResult = .ok shared → shared ≠ "" →
      resolveToken w = .ok (shared, w.envMetaAppSecret)) ∧
    (∀ (w : ResolveWorld) (cfg : Config), w.envMetaToken = "" →
      w.loadResult = .ok cfg → cfg.accessToken = "" → w.sharedResult = .ok "" →
      resolveToken w = .error .notAuthenticated) ∧
    (∀ w : ResolveWorld, resolveToken w = .error .notAuthenticated →
      w.envMetaToken = "" ∧
      (∃ cfg, w.loadResult = .ok cfg ∧ cfg.accessToken = "") ∧
      w.sharedResult = .ok "") := by
  refine ⟨?_, ?_, ?_, ?_, ?_⟩
  · intro w h
    simp [resolveToken, h]
  · intro w cfg he hl hc
    exact ⟨if cfg.appSecret = "" then w.envMetaAppSecret else cfg.appSecret,
      by simp [resolveToken, he, hl, hc]⟩
  · intro w cfg shared he hl hc hs hne
    simp [resolveToken, he, hl, hc, hs, hne]
  · intro w cfg he hl hc hs
    simp [resolveToken, he, hl, hc, hs]
  · intro w h
    by_cases he : w.envMetaToken = ""
    · refine ⟨he, ?_⟩
      cases hl : w.loadResult with
      | error e => simp [resolveToken, he, hl] at h
      | ok cfg =>
        by_cases hc : cfg.accessToken = ""
        · cases hs : w.sharedResult with
          | error e => simp [resolveToken, he, hl, hc, hs] at h
          | ok shared =>
            by_cases hsh : shared = ""
            · exact ⟨⟨cfg, rfl, hc⟩, by rw [ hsh]⟩
            · simp [resolveToken, he, hl, hc, hs, hsh] at h
        · simp [resolveToken, he, hl, hc] at h
    · simp [resolveToken, he] at h

/-- A world where both the env override and a stored config token exist. -/
def exResolveWorld : ResolveWorld :=
  ⟨"envtok", "envsec", .ok { accessToken := "cfgtok" }, .ok ""⟩

/-- Witness for C5: with both the env override and a stored token present,
the env override is used. -/
theorem resolveToken_priority_witness :
    resolveToken exResolveWorld = .ok ("envtok", "envsec") :=
  resolveToken_priority.1 exResolveWorld (by decide)

/-! ### The OAuth login flow (auth.go `runAuthLogin`)

The listener/channel rendezvous resolves to exactly one of: the consumed
callback's query parameters, or the 5-minute timeout; `callbackQuery`
carries that one outcome (`none` for timeout).  The three provider round
trips and the config write are oracles.  `config.Load` errors are ignored
at both of its call sites in this flow (`err == nil` guard, `_ :=`), so a
failed load is the same as no stored config: `storedCfg = none`. -/

/-- The inputs and oracles one `runAuthLogin` run consumes. -/
structure LoginWorld where
  envAppID : String
  envAppSecret : String
  storedCfg : Option Config
  callbackQuery : Option Values
  exchangeCodeResult : String → Except String String
  exchangeLongResult : String → Except String String
  fetchMeResult : String → Except String (String × String)
  saveResult : Except String Unit

/-- auth.go `resolveAppCredentials`: env vars first, stored config fields
fill whichever of the two is missing. -/
def resolveAppCredentials (w : LoginWorld) : String × String :=
  let appID := w.envAppID
  let appSecret := w.envAppSecret
  if appID = "" ∨ appSecret = "" then
    match w.storedCfg with
    | some c =>
      (if appID = "" then c.appID else appID,
       if appSecret = "" then c.appSecret else appSecret)
    | none => (appID, appSecret)
  else (appID, appSecret)

/-- The callback handler: an `error` query parameter beats everything, then
a missing `code` is an error, else the code is delivered. -/
def handleCallback (q : Values) : Except String String :=
  if q.get "error" ≠ "" then
    .error ("OAuth error: " ++ q.get "error" ++ " — " ++ q.get "error_description")
  else if q.get "code" = "" then .error "no code returned in callback"
  else .ok (q.get "code")

/-- The failures `runAuthLogin` can stop with, in step order. -/
inductive LoginError where
  | missingAppID
  | missingAppSecret
  | callbackError (msg : String)
  | timeout
  | exchangeFailed (msg : String)
  | upgradeFailed (msg : String)
  | fetchMeFailed (msg : String)
  | saveFailed (msg : String)
deriving DecidableEq

/-- What one login run did: whether the code-exchange step was ever
reached, the config handed to `config.Save` (if that step was reached),
and the overall outcome. -/
structure LoginTrace where
  exchangeAttempted : Bool
  savedConfig : Option Config
  result : Except LoginError (String × String)

/-- auth.go `runAuthLogin` as a straight line over the rendezvous outcome:
credentials, callback, code exchange, long-lived upgrade, identity fetch,
then save — the first failing step stops the flow with its error. -/
def runAuthLogin (w : LoginWorld) : LoginTrace :=
  let creds := resolveAppCredentials w
  if creds.1 = "" then ⟨false, none, .error .missingAppID⟩
  else if creds.2 = "" then ⟨false, none, .error .missingAppSecret⟩
  else
    match w.callbackQuery with
    | none => ⟨false, none, .error .timeout⟩
    | some q =>
      match handleCallback q with
      | .error msg => ⟨false, none, .error (.callbackError msg)⟩
      | .ok code =>
        match w.exchangeCodeResult code with
        | .error e => ⟨true, none, .error (.exchangeFailed e)⟩
        | .ok shortToken =>
          match w.exchangeLongResult shortToken with
          | .error e => ⟨true, none, .error (.upgradeFailed e)⟩
          | .ok longToken =>
            match w.fetchMeResult longToken with
            | .error e => ⟨true, none, .error (.fetchMeFailed e)⟩
            | .ok ident =>
              let newCfg : Config :=
                { accessToken := longToken, tokenType := tokenTypeOAuth,
                  userID := ident.1, userName := ident.2,
                  appID := creds.1, appSecret := creds.2,
                  defaultAccount :=
                    match w.storedCfg with
                    | some c => c.defaultAccount
                    | none => "" }
              match w.saveResult with
              | .error e => ⟨true, some newCfg, .error (.saveFailed e)⟩
              | .ok _ => ⟨true, some newCfg, .ok ident⟩

/-- C7: any step failure aborts the remaining login steps and surfaces
that step's error without persisting anything; in particular a callback
carrying an `error` parameter fails with a message referencing that code
and the code exchange is never attempted, and the config is saved only
after code exchange, long-lived upgrade and identity fetch all
succeeded. -/
theorem runAuthLogin_failure_semantics :
    (∀ (w : LoginWorld) (q : Values), (resolveAppCredentials w).1 ≠ "" →
      (resolveAppCredentials w).2 ≠ "" → w.callbackQuery = some q → q.get "error" ≠ "" →
      (runAuthLogin w).result = .error (.callbackError
        ("OAuth error: " ++ q.get "error" ++ " — " ++ q.get "error_description")) ∧
      (runAuthLogin w).exchangeAttempted = false ∧
      (runAuthLogin w).savedConfig = none) ∧
    (∀ w : LoginWorld, (runAuthLogin w).savedConfig ≠ none →
      ∃ q code shortToken longToken ident,
        w.callbackQuery = some q ∧ handleCallback q = .ok code ∧
        w.exchangeCodeResult code = .ok shortToken ∧
        w.exchangeLongResult shortToken = .ok longToken ∧
        w.fetchMeResult longToken = .ok ident) ∧
    (∀ (w : LoginWorld) (q : Values) (code e : String), (resolveAppCredentials w).1 ≠ "" →
      (resolveAppCredentials w).2 ≠ "" → w.callbackQuery = some q →
      handleCallback q = .ok code → w.exchangeCodeResult code = .error e →
      (runAuthLogin w).result = .error (.exchangeFailed e) ∧
      (runAuthLogin w).savedConfig = none) ∧
    (∀ (w : LoginWorld) (q : Values) (code shortToken e : String),
      (resolveAppCredentials w).1 ≠ "" → (resolveAppCredentials w).2 ≠ "" →
      w.callbackQuery = some q → handleCallback q = .ok code →
      w.exchangeCodeResult code = .ok shortToken →
      w.exchangeLongResult shortToken = .error e →
      (runAuthLogin w).result = .error (.upgradeFailed e) ∧
      (runAuthLogin w).savedConfig = none) ∧
    (∀ (w : LoginWorld) (q : Values) (code shortToken longToken e : String),
      (resolveAppCredentials w).1 ≠ "" → (resolveAppCredentials w).2 ≠ "" →
      w.callbackQuery = some q → handleCallback q = .ok code →
      w.exchangeCodeResult code = .ok shortToken →
      w.exchangeLongResult shortToken = .ok longToken →
      w.fetchMeResult longToken = .error e →
      (runAuthLogin w).result = .error (.fetchMeFailed e) ∧
      (runAuthLogin w).savedConfig = none) := by
  refine ⟨?_, ?_, ?_, ?_, ?_⟩
  · intro w q h1 h2 hq herr
    have hcb : handleCallback q = .error
        ("OAuth error: " ++ q.get "error" ++ " — " ++ q.get "error_description") := by
      simp [handleCallback, herr]
    simp [runAuthLogin, h1, h2, hq, hcb]
  · intro w hs
    by_cases h1 : (resolveAppCredentials w).1 = ""
    · simp [runAuthLogin, h1] at hs
    by_cases h2 : (resolveAppCredentials w).2 = ""
    · simp [runAuthLogin, h1, h2] at hs
    cases hq : w.callbackQuery with
    | none => simp [runAuthLogin, h1, h2, hq] at hs
    | some q =>
      cases hcb : handleCallback q with
      | error m => simp [runAuthLogin, h1, h2, hq, hcb] at hs
      | ok code =>
        cases hex : w.exchangeCodeResult code with
        | error e => simp [runAuthLogin, h1, h2, hq, hcb, hex] at hs
        | ok shortToken =>
          cases hlg : w.exchangeLongResult shortToken with
          | error e => simp [runAuthLogin, h1, h2, hq, hcb, hex, hlg] at hs
          | ok longToken =>
            cases hme : w.fetchMeResult longToken with
            | error e => simp [runAuthLogin, h1, h2, hq, hcb, hex, hlg, hme] at hs
            | ok ident =>
              exact ⟨q, code, shortToken, longToken, ident, rfl, hcb, hex, hlg, hme⟩
  · intro w q code e h1 h2 hq hcb hex
    simp [runAuthLogin, h1, h2, hq, hcb, hex]
  · intro w q code shortToken e h1 h2 hq hcb hex hlg
    simp [runAuthLogin, h1, h2, hq, hcb, hex, hlg]
  · intro w q code shortToken longToken e h1 h2 hq hcb hex hlg hme
    simp [runAuthLogin, h1, h2, hq, hcb, hex, hlg, hme]

/-- The callback query of a provider-side rejection. -/
def exDeniedQuery : Values :=
  (Values.empty.set "error" "access_denied").set "error_description" "Permissions error"

/-- A login world whose one consumed callback carries `error=access_denied`. -/
def exLoginWorld : LoginWorld :=
  { envAppID := "app", envAppSecret := "secret", storedCfg := none,
    callbackQuery := some exDeniedQuery,
    exchangeCodeResult := fun _ => .ok "short",
    exchangeLongResult := fun _ => .ok "long",
    fetchMeResult := fun _ => .ok ("1", "User"),
    saveResult := .ok () }

/-- Witness for C7: the `access_denied` callback fails the flow with a
message referencing that code, the code exchange is never attempted, and
nothing is saved. -/
theorem runAuthLogin_failure_semantics_witness :
    (runAuthLogin exLoginWorld).result =
      .error (.callbackError "OAuth error: access_denied — Permissions error") ∧
    (runAuthLogin exLoginWorld).exchangeAttempted = false ∧
    (runAuthLogin exLoginWorld).savedConfig = none := by
  have h := runAuthLogin_failure_semantics.1 exLoginWorld exDeniedQuery
    (by decide) (by decide) rfl (by decide)
  refine ⟨?_, h.2.1, h.2.2⟩
  rw [ h.1]
  congr 1

end MetaAds
